import Mathlib

/-!
Verification development for the auction settlement pipeline of the
aarath backend.  The TypeScript modules `auctionJobs` (expired-auction
settlement), `notificationJobs` (winner notification orchestrator and
retry sweep) and the auction-room creation path are embedded shallowly:
the Prisma/Firebase stores become explicit state records, asynchronous
throwing code becomes `Except` or explicit success flags, and JavaScript
truthiness (`||`, `&&`, `??`, `if (x)`) is modelled by dedicated helpers.
Amounts are carried as `Int` and instants as `Nat` (the code performs no
arithmetic on them beyond comparisons and exact equality).
-/

namespace Aarath

/-- JS `a || b` for `a : string | undefined` (empty string is falsy). -/
def strOr (a : Option String) (b : String) : String :=
  match a with
  | some s => if s = "" then b else s
  | none => b

/-- JS truthiness of a `string | null | undefined` value. -/
def strTruthy (a : Option String) : Bool :=
  match a with
  | some s => s ≠ ""
  | none => false

/-- JS `a || b` for `a : number | undefined` modelled on `Nat` (0 is falsy). -/
def natOr (a : Option Nat) (b : Nat) : Nat :=
  match a with
  | some n => if n = 0 then b else n
  | none => b

/-- One bid entry inside the Firebase live snapshot (all fields may be absent). -/
structure LiveBid where
  userName : Option String
  amount : Option Int
  bidderId : Option String
  userId : Option String
  timestamp : Option Nat
deriving DecidableEq, Repr

/-- The live auction snapshot `aarath/auctions/{id}` read from Firebase:
an ordered map of bid id to bid data plus the running aggregates. -/
structure LiveSnapshot where
  bids : List (String × LiveBid)
  totalBids : Option Nat
  currentHighestBid : Option Int
deriving DecidableEq, Repr

/-- The `Bid` interface of `auctionJobs` (optional fields as in the source). -/
structure Bid where
  id : String
  userName : Option String
  amount : Int
  bidderId : Option String
  userId : Option String
  timestamp : Option Nat
deriving DecidableEq, Repr

/-- A row of the durable `auction_bids` table as written by `saveBidHistory`. -/
structure DBBid where
  id : String
  auctionRoomId : String
  bidderName : Option String
  amount : Int
  bidderId : String
  timestamp : Nat
  isWinningBid : Bool
deriving DecidableEq, Repr

/-- A row of the `auction_rooms` table (fields the settlement pipeline touches). -/
structure AuctionRoom where
  id : String
  productId : String
  startingBid : Int
  currentHighestBid : Option Int
  currentHighestBidderId : Option String
  winnerId : Option String
  endTime : Nat
  status : String
  totalBids : Nat
  totalParticipants : Nat
  updatedAt : Nat
deriving DecidableEq, Repr

/-- A row of the `Product` table (fields the pipeline touches). -/
structure Product where
  id : String
  title : String
  environment : String
deriving DecidableEq, Repr

/-- A row of the `User` table as selected by `getWinnerData`. -/
structure User where
  id : String
  businessName : Option String
  whatsapp : Option String
  email : Option String
deriving DecidableEq, Repr

/-- Result of the email transport `sendEmail`. -/
structure EmailSendResult where
  success : Bool
  messageId : Option String
  error : Option String
deriving DecidableEq, Repr

/-- Result of the Twilio transports (WhatsApp template send / plain SMS). -/
structure TwilioSendResult where
  success : Bool
  sid : Option String
  error : Option String
deriving DecidableEq, Repr

/-- The `NotificationResult` interface of `notificationJobs`. -/
structure NotificationResult where
  success : Bool
  sid : Option String
  messageId : Option String
  error : Option String
deriving DecidableEq, Repr

/-- The `AdditionalNotifications` interface of `notificationJobs`. -/
structure AdditionalNotifications where
  whatsapp : Option NotificationResult
  sms : Option NotificationResult
deriving DecidableEq, Repr

/-- The durable relational store plus an observation trace of winner
notification calls (one entry per invocation of `notifyAuctionWinner`,
recording auction id and winner id). -/
structure SysState where
  rooms : List AuctionRoom
  products : List Product
  bidRows : List DBBid
  notifyCalls : List (String × String)
deriving Repr

/-- External world: the clock, the Firebase live store, the per-bid-id
persistence failure oracle, the user table and the notification
transports.  Transports are keyed by recipient; a `.error` value models a
thrown exception, `.ok` a structured transport result.  Message contents
(subject, body, HTML) never influence control flow in the source and are
elided. -/
structure Env where
  now : Nat
  live : String → Option LiveSnapshot
  createBidFails : String → Bool
  users : List User
  sendEmail : String → Except String EmailSendResult
  sendWhatsApp : String → Except String TwilioSendResult
  sendSMS : String → Except String TwilioSendResult

/-! ## Winner notification orchestrator (`notificationJobs`) -/

/-- `getWinnerData`: fetch the winner row and fail when it is missing or has
no usable email address (`if (!winner.email)` — empty string is falsy). -/
def getWinnerData (env : Env) (winnerId : String) : Except String User :=
  match env.users.find? (fun u => u.id = winnerId) with
  | none => .error ("Winner not found for user " ++ winnerId)
  | some winner =>
    if strTruthy winner.email then .ok winner
    else .error ("Winner email is required for notifications but not available for user " ++ winnerId)

/-- `sendMandatoryEmailNotification`: send via the email transport and fold
the transport result into a `NotificationResult`. -/
def sendMandatoryEmailNotification (env : Env) (winner : User) : Except String NotificationResult := do
  let emailResult ← env.sendEmail ((winner.email).getD "")
  if !emailResult.success then
    pure { success := false, sid := none, messageId := none, error := emailResult.error }
  else
    pure { success := true, sid := none, messageId := emailResult.messageId, error := none }

/-- `sendWhatsAppNotification`: skipped (returns `null`) when the winner has
no WhatsApp number on record. -/
def sendWhatsAppNotification (env : Env) (winner : User) : Except String (Option NotificationResult) := do
  if !strTruthy winner.whatsapp then
    pure none
  else do
    let whatsappResult ← env.sendWhatsApp ((winner.whatsapp).getD "")
    pure (some { success := whatsappResult.success, sid := whatsappResult.sid,
                 messageId := none, error := whatsappResult.error })

/-- `sendSMSNotification`: also guarded on the WhatsApp number field. -/
def sendSMSNotification (env : Env) (winner : User) : Except String (Option NotificationResult) := do
  if !strTruthy winner.whatsapp then
    pure none
  else do
    let smsResult ← env.sendSMS ((winner.whatsapp).getD "")
    pure (some { success := smsResult.success, sid := smsResult.sid,
                 messageId := none, error := smsResult.error })

/-- `sendAdditionalNotifications`: WhatsApp first, SMS only as fallback when
the WhatsApp attempt ran and failed. -/
def sendAdditionalNotifications (env : Env) (winner : User) : Except String AdditionalNotifications := do
  let whatsappResult ← sendWhatsAppNotification env winner
  match whatsappResult with
  | some wr =>
    if !wr.success then do
      let sms ← sendSMSNotification env winner
      pure { whatsapp := some wr, sms := sms }
    else
      pure { whatsapp := some wr, sms := none }
  | none => pure { whatsapp := none, sms := none }

/-- The object returned by `notifyAuctionWinner`. -/
structure WinnerNotifyOutcome where
  success : Bool
  method : Option String
  messageId : Option String
  recipient : Option String
  additionalWhatsapp : Option NotificationResult
  additionalSms : Option NotificationResult
  error : Option String
deriving DecidableEq, Repr

/-- The `try` block of `notifyAuctionWinner`.  Note that step 4 of the
source only logs when the mandatory email failed; execution continues and
the returned object carries `success: true` unconditionally. -/
def notifyAuctionWinnerBody (env : Env) (winnerId : String) : Except String WinnerNotifyOutcome := do
  let winner ← getWinnerData env winnerId
  let emailResult ← sendMandatoryEmailNotification env winner
  let additionalNotifications ← sendAdditionalNotifications env winner
  pure
    { success := true
      method := some "email"
      messageId := emailResult.messageId
      recipient := winner.email
      additionalWhatsapp := additionalNotifications.whatsapp
      additionalSms := additionalNotifications.sms
      error := none }

/-- The failure object built by the `catch` block of `notifyAuctionWinner`. -/
def notifyFailureOutcome (msg : String) : WinnerNotifyOutcome :=
  { success := false, method := none, messageId := none, recipient := none
    additionalWhatsapp := none, additionalSms := none
    error := some ("Failed to notify auction winner: " ++ msg) }

/-- `notifyAuctionWinner(auctionId, winnerId, auctionTitle, winningBid)`:
the `try` body with every internal exception converted by the `catch`
into a structured failure object.  The auction id, title and bid amount
only feed message contents in the source. -/
def notifyAuctionWinner (env : Env) (auctionId winnerId auctionTitle : String)
    (winningBid : Int) : WinnerNotifyOutcome :=
  match notifyAuctionWinnerBody env winnerId with
  | .ok r => r
  | .error msg => notifyFailureOutcome msg

/-! ## Firebase adapter and bid formatting (`auctionJobs` utilities) -/

/-- One entry of `formatBidsFromFirebase`: defaults are JS falsy-or
(`|| ""`, `|| 0`, `|| new Date().toISOString()`). -/
def formatBid (now : Nat) (entry : String × LiveBid) : Bid :=
  { id := entry.1
    userName := some (strOr entry.2.userName "")
    amount := (entry.2.amount).getD 0
    bidderId := some (strOr entry.2.bidderId "")
    userId := some (strOr entry.2.userId (strOr entry.2.bidderId ""))
    timestamp := some (natOr entry.2.timestamp now) }

/-- `formatBidsFromFirebase`: `Object.entries(bids || {})` mapped to `Bid`s. -/
def formatBidsFromFirebase (now : Nat) (bids : List (String × LiveBid)) : List Bid :=
  bids.map (formatBid now)

/-- `firebaseData?.auctionRoom?.bids ?? {}` for a given auction id. -/
def liveBidsOf (env : Env) (auctionId : String) : List (String × LiveBid) :=
  ((env.live auctionId).map LiveSnapshot.bids).getD []

/-- The bid list `processExpiredAuction` works with for a given auction id. -/
def expiredBids (env : Env) (auctionId : String) : List Bid :=
  formatBidsFromFirebase env.now (liveBidsOf env auctionId)

/-- `firebaseData?.auctionRoom?.totalBids ?? 0`. -/
def reportedTotalBids (env : Env) (auctionId : String) : Nat :=
  ((env.live auctionId).bind LiveSnapshot.totalBids).getD 0

/-- `firebaseData?.auctionRoom?.currentHighestBid ?? auction.startingBid`. -/
def reportedHighestBid (env : Env) (auction : AuctionRoom) : Int :=
  ((env.live auction.id).bind LiveSnapshot.currentHighestBid).getD auction.startingBid

/-! ## Bid reconciliation (`auctionJobs.saveBidHistory`) -/

/-- `Boolean(currentHighestBid && bid.amount === currentHighestBid)`:
the left operand is falsy when the parameter is absent or zero. -/
def winningFlag (currentHighestBid : Option Int) (amount : Int) : Bool :=
  match currentHighestBid with
  | none => false
  | some c => if c = 0 then false else decide (amount = c)

/-- The `auction_bids` row built by the `prisma.auctionBid.create` call in
`saveBidHistory` (`bid.userId ?? bid.bidderId ?? "unknown"` is nullish
coalescing; `bid.timestamp ? ... : new Date()` is a truthiness test). -/
def mkBidRow (now : Nat) (auctionId : String) (currentHighestBid : Option Int)
    (bid : Bid) : DBBid :=
  { id := bid.id
    auctionRoomId := auctionId
    bidderName := bid.userName
    amount := bid.amount
    bidderId := ((bid.userId).orElse fun _ => bid.bidderId).getD "unknown"
    timestamp := natOr bid.timestamp now
    isWinningBid := winningFlag currentHighestBid bid.amount }

/-- The `for (const bid of bids)` loop of `saveBidHistory` over the durable
ledger: skip rows whose id already exists, otherwise insert; a failing
insert aborts the remaining batch (the thrown error is modelled by the
`false` flag, inserts made so far persist). -/
def saveBidHistoryLoop (env : Env) (auctionId : String) (currentHighestBid : Option Int) :
    List Bid → List DBBid → List DBBid × Bool
  | [], rows => (rows, true)
  | bid :: rest, rows =>
    if rows.any (fun r => r.id = bid.id) then
      saveBidHistoryLoop env auctionId currentHighestBid rest rows
    else if env.createBidFails bid.id then
      (rows, false)
    else
      saveBidHistoryLoop env auctionId currentHighestBid rest
        (rows ++ [mkBidRow env.now auctionId currentHighestBid bid])

/-- `auctionJobs.saveBidHistory(auctionId, bids, currentHighestBid)` acting
on the store; the flag is `true` exactly when the call returns rather than
throws. -/
def saveBidHistory (env : Env) (auctionId : String) (bids : List Bid)
    (currentHighestBid : Option Int) (s : SysState) : SysState × Bool :=
  let res := saveBidHistoryLoop env auctionId currentHighestBid bids s.bidRows
  ({ s with bidRows := res.1 }, res.2)

/-- Unfolding equation of `saveBidHistoryLoop` on the empty batch. -/
theorem saveBidHistoryLoop_nil (env : Env) (auctionId : String) (chb : Option Int)
    (rows : List DBBid) : saveBidHistoryLoop env auctionId chb [] rows = (rows, true) := rfl

/-- Unfolding equation of `saveBidHistoryLoop` on a nonempty batch. -/
theorem saveBidHistoryLoop_cons (env : Env) (auctionId : String) (chb : Option Int)
    (b : Bid) (rest : List Bid) (rows : List DBBid) :
    saveBidHistoryLoop env auctionId chb (b :: rest) rows =
      if (rows.any fun r => r.id = b.id) then
        saveBidHistoryLoop env auctionId chb rest rows
      else if env.createBidFails b.id then
        (rows, false)
      else
        saveBidHistoryLoop env auctionId chb rest
          (rows ++ [mkBidRow env.now auctionId chb b]) := rfl

/-! ## Statistics and room update (`auctionJobs.updateAuctionStats`) -/

/-- The `AuctionUpdateData` interface of `auctionJobs`. -/
structure AuctionUpdateData where
  status : String
  updatedAt : Nat
  totalBids : Nat
  totalParticipants : Nat
  currentHighestBid : Int
  currentHighestBidderId : Option String
  winnerId : Option String
deriving DecidableEq, Repr

/-- One step of the `bids.reduce` that finds the highest bid:
`(max, bid) => (bid.amount > (max?.amount ?? -Infinity) ? bid : max)`. -/
def highestBidStep (max : Option Bid) (bid : Bid) : Option Bid :=
  match max with
  | none => some bid
  | some m => if bid.amount > m.amount then some bid else some m

/-- The `highestBid` local of `updateAuctionStats` (stays `undefined` for an
empty bid list). -/
def highestBidOf (bids : List Bid) : Option Bid :=
  if bids.length > 0 then bids.foldl highestBidStep none else none

/-- `bids.map((bid) => bid.bidderId ?? bid.userId).filter(Boolean)`. -/
def participantIds (bids : List Bid) : List String :=
  (bids.map fun bid => (bid.bidderId).orElse fun _ => bid.userId).filterMap fun o =>
    match o with
    | some s => if s = "" then none else some s
    | none => none

/-- The `updateData` record computed by `updateAuctionStats`
(`new Set(...)` cardinality becomes `List.dedup.length`). -/
def computeUpdateData (auction : AuctionRoom) (bids : List Bid)
    (currentHighestBid : Option Int) (totalBids : Option Nat) (now : Nat) :
    AuctionUpdateData :=
  let uniqueBidders := (participantIds bids).dedup
  let highestBid := highestBidOf bids
  { status := "ended"
    updatedAt := now
    totalBids := totalBids.getD bids.length
    totalParticipants := uniqueBidders.length
    currentHighestBid := currentHighestBid.getD auction.startingBid
    currentHighestBidderId := highestBid.bind Bid.userId
    winnerId := highestBid.bind Bid.userId }

/-- Effect of `prisma.auctionRoom.update({ where: { id }, data })` on a row. -/
def applyRoomUpdate (r : AuctionRoom) (u : AuctionUpdateData) : AuctionRoom :=
  { r with
    status := u.status
    updatedAt := u.updatedAt
    totalBids := u.totalBids
    totalParticipants := u.totalParticipants
    currentHighestBid := some u.currentHighestBid
    currentHighestBidderId := u.currentHighestBidderId
    winnerId := u.winnerId }

/-- `prisma.auctionRoom.update` on the store: rewrite the matching row; the
flag is `false` when no row matches (Prisma throws in that case). -/
def updateRoomWhere (roomId : String) (u : AuctionUpdateData) (s : SysState) :
    SysState × Bool :=
  ({ s with rooms := s.rooms.map fun r => if r.id = roomId then applyRoomUpdate r u else r },
   s.rooms.any fun r => r.id = roomId)

/-- `auctionJobs.updateAuctionStats(auction, bids, currentHighestBid,
totalBids)`: computes the update data and writes it to the room; the
update data is also returned, mirroring the row returned by Prisma. -/
def updateAuctionStats (env : Env) (auction : AuctionRoom) (bids : List Bid)
    (currentHighestBid : Option Int) (totalBids : Option Nat) (s : SysState) :
    (SysState × Bool) × AuctionUpdateData :=
  let u := computeUpdateData auction bids currentHighestBid totalBids env.now
  (updateRoomWhere auction.id u s, u)

/-! ## Settlement (`auctionJobs.processExpiredAuction` and the batch) -/

/-- `auctionJobs.transferAuctionProductEnvironment`: move the linked product
back to the marketplace environment; flag `false` models the throw when the
product row is missing. -/
def transferAuctionProductEnvironment (auction : AuctionRoom) (s : SysState) :
    SysState × Bool :=
  ({ s with products := s.products.map fun p =>
      if p.id = auction.productId then { p with environment := "MARKETPLACE" } else p },
   s.products.any fun p => p.id = auction.productId)

/-- `auctionJobs.processExpiredAuction(auction)`.  The flag is `true` when
the method returns normally, `false` when it rethrows; state mutations made
before a failure persist.  A winner notification is recorded in
`notifyCalls` when `updatedAuction.winnerId` is truthy (the call itself
never throws and does not mutate the relational store); the lookup of
`auction.product.title` faults when the product row is missing. -/
def processExpiredAuction (env : Env) (auction : AuctionRoom) (s : SysState) :
    SysState × Bool :=
  let bids := expiredBids env auction.id
  let totalBids := reportedTotalBids env auction.id
  let currentHighestBid := reportedHighestBid env auction
  if bids.length > 0 then
    let sv := saveBidHistory env auction.id bids (some currentHighestBid) s
    if sv.2 then
      let us := updateAuctionStats env auction bids (some currentHighestBid) (some totalBids) sv.1
      if us.1.2 then
        if strTruthy us.2.winnerId then
          match us.1.1.products.find? (fun p => p.id = auction.productId) with
          | none => (us.1.1, false)
          | some _ =>
            transferAuctionProductEnvironment auction
              { us.1.1 with
                notifyCalls := us.1.1.notifyCalls ++ [(auction.id, (us.2.winnerId).getD "")] }
        else
          transferAuctionProductEnvironment auction us.1.1
      else (us.1.1, false)
    else (sv.1, false)
  else
    let us := updateAuctionStats env auction [] none none s
    if us.1.2 then transferAuctionProductEnvironment auction us.1.1
    else (us.1.1, false)

/-- `isExpiredActive`: the eligibility predicate of `getExpiredAuctions`
(`status == "active" && endTime <= now`). -/
def isExpiredActive (now : Nat) (r : AuctionRoom) : Bool :=
  r.status = "active" && r.endTime ≤ now

/-- `getExpiredAuctions`: the Prisma query for rooms to settle. -/
def getExpiredAuctions (env : Env) (s : SysState) : List AuctionRoom :=
  s.rooms.filter (isExpiredActive env.now)

/-- The `for (const auction of expiredAuctions)` loop of
`checkExpiredAuctions`: a rethrown per-room failure aborts the remaining
rooms. -/
def processAuctionsLoop (env : Env) : List AuctionRoom → SysState → SysState × Bool
  | [], s => (s, true)
  | a :: rest, s =>
    match processExpiredAuction env a s with
    | (s', true) => processAuctionsLoop env rest s'
    | (s', false) => (s', false)

/-- `auctionJobs.checkExpiredAuctions()`: query once, process sequentially;
the surrounding `try`/`catch` converts any thrown error into a `false`
return value, so the call itself never throws. -/
def checkExpiredAuctions (env : Env) (s : SysState) : SysState × Bool :=
  processAuctionsLoop env (getExpiredAuctions env s) s

/-! ## Winner-notification retry sweep (`notificationJobs`) -/

/-- `getEndedAuctionsForNotification`: rooms with a past `endTime`, a
non-null `winnerId`, and a status other than `winner_notified`. -/
def getEndedAuctionsForNotification (env : Env) (s : SysState) : List AuctionRoom :=
  s.rooms.filter fun r =>
    decide (r.endTime < env.now) && r.winnerId.isSome && decide (r.status ≠ "winner_notified")

/-- `processSingleAuctionWinner(auction)`: skip when `auction.winnerId` is
falsy; otherwise notify the winner (recorded in `notifyCalls`) and, only
when the notification result reports success, advance the room status to
`winner_notified`.  The returned tag mirrors the `status` field of the
result object; a missing product row (the `auction.product.title` access)
or a missing room row surfaces as `"failed"` through the method's own
`catch`. -/
def processSingleAuctionWinner (env : Env) (auction : AuctionRoom) (s : SysState) :
    SysState × String :=
  if !strTruthy auction.winnerId then
    (s, "skipped")
  else
    match s.products.find? (fun p => p.id = auction.productId) with
    | none => (s, "failed")
    | some product =>
      let winnerId := (auction.winnerId).getD ""
      let result := notifyAuctionWinner env auction.id winnerId product.title
        ((auction.currentHighestBid).getD 0)
      let s1 := { s with notifyCalls := s.notifyCalls ++ [(auction.id, winnerId)] }
      if result.success then
        if s1.rooms.any (fun r => r.id = auction.id) then
          ({ s1 with rooms := s1.rooms.map fun r =>
              if r.id = auction.id then { r with status := "winner_notified" } else r },
           "success")
        else (s1, "failed")
      else (s1, "failed")

/-- The per-auction processing of `processAuctionWinnerNotifications`.  The
source fires the per-auction promises concurrently; each one touches only
its own room row, so the resulting store state is that of the sequential
fold. -/
def sweepLoop (env : Env) : List AuctionRoom → SysState → SysState
  | [], s => s
  | a :: rest, s => sweepLoop env rest (processSingleAuctionWinner env a s).1

/-- `processAuctionWinnerNotifications()`: query the rooms needing a winner
notification once, then process each. -/
def processAuctionWinnerNotifications (env : Env) (s : SysState) : SysState :=
  sweepLoop env (getEndedAuctionsForNotification env s) s

/-! ## Reachable store states

The mutation sites of the auction tables in the running system are the
auction-room creation path of `productController.createProduct` (status
`"active"`, `winnerId` absent, fresh primary key), the scheduled
`auctionJobs.checkExpiredAuctions` job, and the notification sweep
`processAuctionWinnerNotifications`.  `Step` is one such mutation, and
`Reachable` the states obtainable from the empty store. -/

inductive Step : SysState → SysState → Prop
  | create (s : SysState) (room : AuctionRoom) (product : Product)
      (hstatus : room.status = "active") (hwinner : room.winnerId = none)
      (hfresh : ∀ r ∈ s.rooms, r.id ≠ room.id) :
      Step s { s with rooms := s.rooms ++ [room], products := s.products ++ [product] }
  | settle (s : SysState) (env : Env) : Step s (checkExpiredAuctions env s).1
  | sweep (s : SysState) (env : Env) : Step s (processAuctionWinnerNotifications env s)

inductive Reachable : SysState → Prop
  | init : Reachable { rooms := [], products := [], bidRows := [], notifyCalls := [] }
  | step {s s' : SysState} : Reachable s → Step s s' → Reachable s'

/-! ## Concrete instances used to settle the claims -/

/-- A winner row with an email address on record. -/
def userC1 : User :=
  { id := "u1", businessName := some "Ravi Traders", whatsapp := none,
    email := some "u1@example.com" }

/-- Environment in which the mandatory email transport reports failure
(structured `success: false`, no exception). -/
def envC1 : Env :=
  { now := 0
    live := fun _ => none
    createBidFails := fun _ => false
    users := [userC1]
    sendEmail := fun _ => .ok { success := false, messageId := none, error := some "SMTP connection refused" }
    sendWhatsApp := fun _ => .ok { success := true, sid := none, error := none }
    sendSMS := fun _ => .ok { success := true, sid := none, error := none } }

/-- Environment whose user table is empty. -/
def envC10 : Env :=
  { now := 0
    live := fun _ => none
    createBidFails := fun _ => false
    users := []
    sendEmail := fun _ => .ok { success := true, messageId := some "m1", error := none }
    sendWhatsApp := fun _ => .ok { success := true, sid := none, error := none }
    sendSMS := fun _ => .ok { success := true, sid := none, error := none } }

/-- C1: the claim says the overall result of `notifyAuctionWinner` has
`success = true` only if the mandatory email send succeeded.  In the code,
when the email transport reports failure the orchestrator merely logs and
still returns `success: true` (contradicting its own step-4 comment and the
module header that the mandatory email "must succeed"): at this input the
email result is a failure, yet the overall result is a success. -/
theorem notifyAuctionWinner_email_failure_still_success :
    sendMandatoryEmailNotification envC1 userC1 =
      .ok { success := false, sid := none, messageId := none, error := some "SMTP connection refused" } ∧
    notifyAuctionWinner envC1 "room1" "u1" "Wheat Lot" 500 =
      { success := true, method := some "email", messageId := none,
        recipient := some "u1@example.com", additionalWhatsapp := none,
        additionalSms := none, error := none } :=
  ⟨rfl, rfl⟩

/-- C10: `notifyAuctionWinner` never propagates an exception: whenever its
`try` body throws (missing user record, missing email address, a throwing
transport), the returned object is the structured failure
`{ success: false, error: ... }`, and whenever the body completes the
returned object is exactly the body's result. -/
theorem notifyAuctionWinner_total (env : Env) (auctionId winnerId auctionTitle : String)
    (winningBid : Int) :
    (∀ msg, notifyAuctionWinnerBody env winnerId = .error msg →
      notifyAuctionWinner env auctionId winnerId auctionTitle winningBid = notifyFailureOutcome msg ∧
      (notifyAuctionWinner env auctionId winnerId auctionTitle winningBid).success = false ∧
      (notifyAuctionWinner env auctionId winnerId auctionTitle winningBid).error =
        some ("Failed to notify auction winner: " ++ msg)) ∧
    (∀ r, notifyAuctionWinnerBody env winnerId = .ok r →
      notifyAuctionWinner env auctionId winnerId auctionTitle winningBid = r) := by
  refine ⟨fun msg h => ?_, fun r h => ?_⟩
  · simp [notifyAuctionWinner, h, notifyFailureOutcome]
  · simp [notifyAuctionWinner, h]

/-- Witness for C10 at a concrete input: the winner id has no user record,
the body throws, and the call returns the structured failure object. -/
theorem notifyAuctionWinner_total_witness :
    notifyAuctionWinner envC10 "roomZ" "u9" "Corn Lot" 100 =
      notifyFailureOutcome ("Winner not found for user " ++ "u9") :=
  ((notifyAuctionWinner_total envC10 "roomZ" "u9" "Corn Lot" 100).1
    ("Winner not found for user " ++ "u9") rfl).1

/-! ## Reconciliation lemmas -/

/-- `saveBidHistory` only ever appends to the ledger, and every appended row
is the `mkBidRow` image of one of the incoming bids: pre-existing rows are
left completely untouched. -/
theorem saveBidHistoryLoop_extends (env : Env) (auctionId : String) (chb : Option Int) :
    ∀ (bids : List Bid) (rows : List DBBid),
      ∃ ext, (saveBidHistoryLoop env auctionId chb bids rows).1 = rows ++ ext ∧
        ∀ r ∈ ext, ∃ b, b ∈ bids ∧ r = mkBidRow env.now auctionId chb b := by
  intro bids
  induction bids with
  | nil =>
    intro rows
    exact ⟨[], by simp [saveBidHistoryLoop], by simp⟩
  | cons b rest ih =>
    intro rows
    by_cases h1 : (rows.any fun r => r.id = b.id) = true
    · have e1 : saveBidHistoryLoop env auctionId chb (b :: rest) rows =
          saveBidHistoryLoop env auctionId chb rest rows := by
        rw [saveBidHistoryLoop_cons, if_pos h1]
      obtain ⟨ext, he, hm⟩ := ih rows
      exact ⟨ext, by rw [e1, he], fun r hr =>
        (hm r hr).imp fun b' hb' => ⟨List.mem_cons_of_mem _ hb'.1, hb'.2⟩⟩
    · by_cases h2 : env.createBidFails b.id = true
      · have e1 : saveBidHistoryLoop env auctionId chb (b :: rest) rows = (rows, false) := by
          rw [saveBidHistoryLoop_cons, if_neg h1, if_pos h2]
        exact ⟨[], by rw [e1]; simp, by simp⟩
      · have e1 : saveBidHistoryLoop env auctionId chb (b :: rest) rows =
            saveBidHistoryLoop env auctionId chb rest (rows ++ [mkBidRow env.now auctionId chb b]) := by
          rw [saveBidHistoryLoop_cons, if_neg h1, if_neg h2]
        obtain ⟨ext, he, hm⟩ := ih (rows ++ [mkBidRow env.now auctionId chb b])
        refine ⟨mkBidRow env.now auctionId chb b :: ext, ?_, ?_⟩
        · rw [e1, he, List.append_assoc]
          rfl
        · intro r hr
          rcases List.mem_cons.mp hr with h | h
          · exact ⟨b, List.mem_cons_self _ _, h⟩
          · obtain ⟨b', hb', he'⟩ := hm r h
            exact ⟨b', List.mem_cons_of_mem _ hb', he'⟩

/-- Rerunning the reconciliation loop on its own output changes nothing:
every bid is either already present (skipped) or is the same bid the first
run aborted on. -/
theorem saveBidHistoryLoop_idem (env : Env) (auctionId : String) (chb : Option Int) :
    ∀ (bids : List Bid) (rows : List DBBid),
      saveBidHistoryLoop env auctionId chb bids (saveBidHistoryLoop env auctionId chb bids rows).1 =
        saveBidHistoryLoop env auctionId chb bids rows := by
  intro bids
  induction bids with
  | nil =>
    intro rows
    rfl
  | cons b rest ih =>
    intro rows
    by_cases h1 : (rows.any fun r => r.id = b.id) = true
    · have e1 : saveBidHistoryLoop env auctionId chb (b :: rest) rows =
          saveBidHistoryLoop env auctionId chb rest rows := by
        rw [saveBidHistoryLoop_cons, if_pos h1]
      obtain ⟨ext, he, -⟩ := saveBidHistoryLoop_extends env auctionId chb rest rows
      have h1' : ((saveBidHistoryLoop env auctionId chb rest rows).1.any fun r => r.id = b.id) = true := by
        rw [he, List.any_append, h1]
        rfl
      have e2 : saveBidHistoryLoop env auctionId chb (b :: rest)
            (saveBidHistoryLoop env auctionId chb rest rows).1 =
          saveBidHistoryLoop env auctionId chb rest
            (saveBidHistoryLoop env auctionId chb rest rows).1 := by
        rw [saveBidHistoryLoop_cons, if_pos h1']
      rw [e1, e2, ih rows]
    · by_cases h2 : env.createBidFails b.id = true
      · have e1 : saveBidHistoryLoop env auctionId chb (b :: rest) rows = (rows, false) := by
          rw [saveBidHistoryLoop_cons, if_neg h1, if_pos h2]
        rw [e1]
        exact e1
      · have e1 : saveBidHistoryLoop env auctionId chb (b :: rest) rows =
            saveBidHistoryLoop env auctionId chb rest (rows ++ [mkBidRow env.now auctionId chb b]) := by
          rw [saveBidHistoryLoop_cons, if_neg h1, if_neg h2]
        obtain ⟨ext, he, -⟩ :=
          saveBidHistoryLoop_extends env auctionId chb rest (rows ++ [mkBidRow env.now auctionId chb b])
        have h1' : ((saveBidHistoryLoop env auctionId chb rest
              (rows ++ [mkBidRow env.now auctionId chb b])).1.any fun r => r.id = b.id) = true := by
          rw [he, List.any_append, List.any_append]
          simp [mkBidRow]
        have e2 : saveBidHistoryLoop env auctionId chb (b :: rest)
              (saveBidHistoryLoop env auctionId chb rest (rows ++ [mkBidRow env.now auctionId chb b])).1 =
            saveBidHistoryLoop env auctionId chb rest
              (saveBidHistoryLoop env auctionId chb rest (rows ++ [mkBidRow env.now auctionId chb b])).1 := by
          rw [saveBidHistoryLoop_cons, if_pos h1']
        rw [e1, e2, ih (rows ++ [mkBidRow env.now auctionId chb b])]

/-- C4: bid reconciliation is idempotent: a second `saveBidHistory` call
with the same arguments returns the identical store (in particular the same
durable bid count) and the identical success flag, and the ledger only ever
grows by appending — every row already present is left untouched. -/
theorem saveBidHistory_idempotent (env : Env) (auctionId : String) (bids : List Bid)
    (currentHighestBid : Option Int) (s : SysState) :
    saveBidHistory env auctionId bids currentHighestBid
        (saveBidHistory env auctionId bids currentHighestBid s).1 =
      saveBidHistory env auctionId bids currentHighestBid s ∧
    ∃ ext, (saveBidHistory env auctionId bids currentHighestBid s).1.bidRows =
      s.bidRows ++ ext := by
  constructor
  · have h := saveBidHistoryLoop_idem env auctionId currentHighestBid bids s.bidRows
    simp only [saveBidHistory]
    rw [h]
  · obtain ⟨ext, he, -⟩ := saveBidHistoryLoop_extends env auctionId currentHighestBid bids s.bidRows
    exact ⟨ext, he⟩

/-- Characterisation of the `isWinningBid` value written by `saveBidHistory`:
true exactly when the `currentHighestBid` parameter is present, nonzero and
equal to the bid's amount. -/
theorem winningFlag_iff (chb : Option Int) (amount : Int) :
    winningFlag chb amount = true ↔ ∃ c, chb = some c ∧ c ≠ 0 ∧ amount = c := by
  cases chb with
  | none => simp [winningFlag]
  | some c =>
    by_cases hc : c = 0
    · subst hc
      simp [winningFlag]
    · simp [winningFlag, hc]

/-- C8 (amended): a newly inserted bid row is marked as the winning bid if
and only if the `currentHighestBid` argument was supplied, nonzero, and
exactly equal to the bid's amount (the source guards the equality test with
a truthiness check, so the value `0` never marks a winner). -/
theorem saveBidHistory_winning_flag_iff (env : Env) (auctionId : String) (bids : List Bid)
    (currentHighestBid : Option Int) (s : SysState) (r : DBBid)
    (hmem : r ∈ (saveBidHistory env auctionId bids currentHighestBid s).1.bidRows)
    (hnew : r ∉ s.bidRows) :
    r.isWinningBid = true ↔ ∃ c, currentHighestBid = some c ∧ c ≠ 0 ∧ r.amount = c := by
  obtain ⟨ext, he, hm⟩ := saveBidHistoryLoop_extends env auctionId currentHighestBid bids s.bidRows
  have hb : (saveBidHistory env auctionId bids currentHighestBid s).1.bidRows =
      s.bidRows ++ ext := he
  rw [hb] at hmem
  rcases List.mem_append.mp hmem with h | h
  · exact absurd h hnew
  · obtain ⟨b, hb', rfl⟩ := hm r h
    simpa [mkBidRow] using winningFlag_iff currentHighestBid b.amount

/-- The empty store. -/
def stateEmpty : SysState :=
  { rooms := [], products := [], bidRows := [], notifyCalls := [] }

/-- A formatted bid of amount 5. -/
def bidW : Bid :=
  { id := "bw", userName := some "W", amount := 5, bidderId := some "u",
    userId := some "u", timestamp := some 1 }

/-- A formatted bid of amount 0 (as produced for a live entry with a falsy
amount field). -/
def bidZ : Bid :=
  { id := "bz", userName := some "Z", amount := 0, bidderId := some "z",
    userId := some "z", timestamp := some 1 }

/-- Witness for C8 at a concrete input: with `currentHighestBid = 5`, the
freshly inserted row of amount 5 is marked winning. -/
theorem saveBidHistory_winning_flag_iff_witness :
    (mkBidRow 0 "A" (some 5) bidW).isWinningBid = true ↔
      ∃ c, (some 5 : Option Int) = some c ∧ c ≠ 0 ∧ (mkBidRow 0 "A" (some 5) bidW).amount = c :=
  saveBidHistory_winning_flag_iff envC10 "A" [bidW] (some 5) stateEmpty
    (mkBidRow 0 "A" (some 5) bidW) (by decide) (by simp [stateEmpty])

/-- C8 counterexample: with `currentHighestBid = 0` passed in and an
incoming bid of amount 0, the inserted row is not marked winning even
though its amount exactly equals the passed value — refuting the claimed
"if and only if ... including 0". -/
theorem saveBidHistory_zero_highest_bid_cex :
    (saveBidHistory envC10 "A" [bidZ] (some 0) stateEmpty).1.bidRows.map DBBid.isWinningBid = [false] ∧
    bidZ.amount = (0 : Int) :=
  ⟨rfl, rfl⟩

/-! ## Statistics lemmas -/

/-- The `reduce` that scans for the highest bid returns a bid of the scanned
collection whose amount dominates every scanned amount. -/
theorem foldl_highestBidStep_some (l : List Bid) :
    ∀ m : Bid, ∃ b, l.foldl highestBidStep (some m) = some b ∧ b ∈ m :: l ∧
      ∀ z ∈ m :: l, z.amount ≤ b.amount := by
  induction l with
  | nil =>
    intro m
    exact ⟨m, rfl, by simp, by simp⟩
  | cons x xs ih =>
    intro m
    by_cases h : m.amount < x.amount
    · have estep : highestBidStep (some m) x = some x := by
        simp [highestBidStep, h]
      obtain ⟨b, hb, hmem, hmax⟩ := ih x
      refine ⟨b, by simpa [estep] using hb, ?_, ?_⟩
      · rcases List.mem_cons.mp hmem with h' | h'
        · exact h' ▸ List.mem_cons_of_mem _ (List.mem_cons_self _ _)
        · exact List.mem_cons_of_mem _ (List.mem_cons_of_mem _ h')
      · intro z hz
        rcases List.mem_cons.mp hz with h' | h'
        · exact h' ▸ le_trans h.le (hmax x (List.mem_cons_self _ _))
        · exact hmax z h'
    · have estep : highestBidStep (some m) x = some m := by
        simp [highestBidStep, not_lt.mp h]
      obtain ⟨b, hb, hmem, hmax⟩ := ih m
      refine ⟨b, by simpa [estep] using hb, ?_, ?_⟩
      · rcases List.mem_cons.mp hmem with h' | h'
        · exact h' ▸ List.mem_cons_self _ _
        · exact List.mem_cons_of_mem _ (List.mem_cons_of_mem _ h')
      · intro z hz
        rcases List.mem_cons.mp hz with h' | h'
        · exact h' ▸ hmax m (List.mem_cons_self _ _)
        rcases List.mem_cons.mp h' with h'' | h''
        · exact h'' ▸ le_trans (not_lt.mp h) (hmax m (List.mem_cons_self _ _))
        · exact hmax z (List.mem_cons_of_mem _ h'')

/-- On a nonempty bid list `highestBidOf` yields a member bid whose amount
is maximal. -/
theorem highestBidOf_spec (l : List Bid) (hne : l ≠ []) :
    ∃ b, highestBidOf l = some b ∧ b ∈ l ∧ ∀ z ∈ l, z.amount ≤ b.amount := by
  cases l with
  | nil => exact absurd rfl hne
  | cons x xs =>
    obtain ⟨b, hb, hmem, hmax⟩ := foldl_highestBidStep_some xs x
    refine ⟨b, ?_, hmem, hmax⟩
    have : highestBidOf (x :: xs) = xs.foldl highestBidStep (some x) := by
      simp [highestBidOf, List.foldl_cons, highestBidStep]
    rw [this, hb]

/-- A concrete auction room used by several concrete instances. -/
def roomT : AuctionRoom :=
  { id := "R", productId := "P", startingBid := 1, currentHighestBid := none,
    currentHighestBidderId := none, winnerId := none, endTime := 10,
    status := "active", totalBids := 0, totalParticipants := 0, updatedAt := 0 }

/-- A bid of amount 5 by user u1. -/
def bidT1 : Bid :=
  { id := "t1", userName := some "A", amount := 5, bidderId := some "u1",
    userId := some "u1", timestamp := some 1 }

/-- A bid of amount 5 by user u2 (ties with `bidT1`). -/
def bidT2 : Bid :=
  { id := "t2", userName := some "B", amount := 5, bidderId := some "u2",
    userId := some "u2", timestamp := some 2 }

/-- A bid of amount 3 by user u2. -/
def bidLow : Bid :=
  { id := "t3", userName := some "B", amount := 3, bidderId := some "u2",
    userId := some "u2", timestamp := some 2 }

/-- C5 counterexample: two bids tie at the highest amount with different
user ids; reversing the bid list changes the computed `winnerId` (the
`reduce` keeps the first maximal bid), so the statistics are not invariant
under every permutation as claimed. -/
theorem updateAuctionStats_tie_order_dependent :
    [bidT1, bidT2].Perm [bidT2, bidT1] ∧
    (updateAuctionStats envC10 roomT [bidT1, bidT2] (some 5) (some 2) stateEmpty).2.winnerId = some "u1" ∧
    (updateAuctionStats envC10 roomT [bidT2, bidT1] (some 5) (some 2) stateEmpty).2.winnerId = some "u2" :=
  ⟨List.Perm.swap bidT2 bidT1 [], rfl, rfl⟩

/-- C5 (amended): the statistics written by `updateAuctionStats` are
permutation-invariant for `totalBids`, `totalParticipants` and
`currentHighestBid`; the computed `winnerId` is additionally
permutation-invariant whenever all bids attaining the maximal amount carry
the same user id (in particular whenever the maximum is attained by exactly
one bid) — under a tie between different users it depends on the bid
order. -/
theorem updateAuctionStats_perm_invariant (env : Env) (auction : AuctionRoom)
    (l₁ l₂ : List Bid) (chb : Option Int) (tb : Option Nat) (s : SysState)
    (hperm : l₁.Perm l₂) :
    (updateAuctionStats env auction l₁ chb tb s).2.totalBids =
      (updateAuctionStats env auction l₂ chb tb s).2.totalBids ∧
    (updateAuctionStats env auction l₁ chb tb s).2.totalParticipants =
      (updateAuctionStats env auction l₂ chb tb s).2.totalParticipants ∧
    (updateAuctionStats env auction l₁ chb tb s).2.currentHighestBid =
      (updateAuctionStats env auction l₂ chb tb s).2.currentHighestBid ∧
    ((∀ x ∈ l₁, ∀ y ∈ l₁, (∀ z ∈ l₁, z.amount ≤ x.amount) →
        (∀ z ∈ l₁, z.amount ≤ y.amount) → x.userId = y.userId) →
      (updateAuctionStats env auction l₁ chb tb s).2.winnerId =
        (updateAuctionStats env auction l₂ chb tb s).2.winnerId) := by
  refine ⟨?_, ?_, rfl, ?_⟩
  · simp [updateAuctionStats, computeUpdateData, hperm.length_eq]
  · have hp : (participantIds l₁).Perm (participantIds l₂) :=
      (hperm.map _).filterMap _
    simp [updateAuctionStats, computeUpdateData, hp.dedup.length_eq]
  · intro htie
    by_cases hnil : l₁ = []
    · have hnil₂ : l₂ = [] := (hnil ▸ hperm).symm.eq_nil
      subst hnil hnil₂
      rfl
    · have hnil₂ : l₂ ≠ [] := by
        intro h
        exact hnil (hperm.symm.symm.trans (h ▸ List.Perm.refl _)).eq_nil
      obtain ⟨b₁, hb₁, hmem₁, hmax₁⟩ := highestBidOf_spec l₁ hnil
      obtain ⟨b₂, hb₂, hmem₂, hmax₂⟩ := highestBidOf_spec l₂ hnil₂
      have hmem₂' : b₂ ∈ l₁ := hperm.mem_iff.mpr hmem₂
      have hmax₂' : ∀ z ∈ l₁, z.amount ≤ b₂.amount := fun z hz =>
        hmax₂ z (hperm.mem_iff.mp hz)
      have huid : b₁.userId = b₂.userId := htie b₁ hmem₁ b₂ hmem₂' hmax₁ hmax₂'
      simp [updateAuctionStats, computeUpdateData, hb₁, hb₂, huid]

/-- Witness for C5 at a concrete input: two bids with distinct amounts in
both orders give the same statistics and winner. -/
theorem updateAuctionStats_perm_invariant_witness :
    (updateAuctionStats envC10 roomT [bidT1, bidLow] (some 5) (some 2) stateEmpty).2.winnerId =
      (updateAuctionStats envC10 roomT [bidLow, bidT1] (some 5) (some 2) stateEmpty).2.winnerId :=
  (updateAuctionStats_perm_invariant envC10 roomT [bidT1, bidLow] [bidLow, bidT1]
    (some 5) (some 2) stateEmpty (List.Perm.swap bidLow bidT1 [])).2.2.2 (by decide)

/-! ## Settlement structure lemmas -/

/-- The update data `processExpiredAuction` writes to its room. -/
def settledUpdate (env : Env) (auction : AuctionRoom) : AuctionUpdateData :=
  if (expiredBids env auction.id).length > 0 then
    computeUpdateData auction (expiredBids env auction.id)
      (some (reportedHighestBid env auction)) (some (reportedTotalBids env auction.id)) env.now
  else
    computeUpdateData auction [] none none env.now

/-- Both branches of the settlement set the room status to `"ended"`. -/
theorem settledUpdate_status (env : Env) (auction : AuctionRoom) :
    (settledUpdate env auction).status = "ended" := by
  unfold settledUpdate
  split <;> rfl

/-- Unfolding equation of `processAuctionsLoop` on the empty batch. -/
theorem processAuctionsLoop_nil (env : Env) (s : SysState) :
    processAuctionsLoop env [] s = (s, true) := rfl

/-- Unfolding equation of `processAuctionsLoop` on a nonempty batch: a
failed room aborts the remaining rooms. -/
theorem processAuctionsLoop_cons (env : Env) (a : AuctionRoom) (rest : List AuctionRoom)
    (s : SysState) :
    processAuctionsLoop env (a :: rest) s =
      if (processExpiredAuction env a s).2 = true then
        processAuctionsLoop env rest (processExpiredAuction env a s).1
      else ((processExpiredAuction env a s).1, false) := by
  rcases h : processExpiredAuction env a s with ⟨s', b⟩
  cases b
  · simp [processAuctionsLoop, h]
  · simp [processAuctionsLoop, h]

/-- The room table after the with-bids branch's room update. -/
theorem settlementRooms_then (env : Env) (auction : AuctionRoom) (s : SysState)
    (hb : (expiredBids env auction.id).length > 0) :
    (updateAuctionStats env auction (expiredBids env auction.id)
        (some (reportedHighestBid env auction)) (some (reportedTotalBids env auction.id))
        (saveBidHistory env auction.id (expiredBids env auction.id)
          (some (reportedHighestBid env auction)) s).1).1.1.rooms =
      s.rooms.map (fun r =>
        if r.id = auction.id then applyRoomUpdate r (settledUpdate env auction) else r) := by
  unfold settledUpdate
  rw [if_pos hb]
  rfl

/-- The room table after the zero-bids branch's room update. -/
theorem settlementRooms_else (env : Env) (auction : AuctionRoom) (s : SysState)
    (hb : ¬ (expiredBids env auction.id).length > 0) :
    (updateAuctionStats env auction [] none none s).1.1.rooms =
      s.rooms.map (fun r =>
        if r.id = auction.id then applyRoomUpdate r (settledUpdate env auction) else r) := by
  unfold settledUpdate
  rw [if_neg hb]
  rfl

/-- `processExpiredAuction` either leaves the room table unchanged (the
reconciliation aborted first) or rewrites it with the by-id settled
update. -/
theorem processExpiredAuction_rooms_cases (env : Env) (auction : AuctionRoom) (s : SysState) :
    (processExpiredAuction env auction s).1.rooms = s.rooms ∨
    (processExpiredAuction env auction s).1.rooms =
      s.rooms.map (fun r =>
        if r.id = auction.id then applyRoomUpdate r (settledUpdate env auction) else r) := by
  have hthen := settlementRooms_then env auction s
  have helse := settlementRooms_else env auction s
  simp only [processExpiredAuction]
  split
  · rename_i hb
    split
    · split
      · split
        · split
          · exact Or.inr (hthen hb)
          · exact Or.inr (hthen hb)
        · exact Or.inr (hthen hb)
      · exact Or.inr (hthen hb)
    · exact Or.inl rfl
  · rename_i hb
    split
    · exact Or.inr (helse hb)
    · exact Or.inr (helse hb)

/-- The per-row update class of the settlement job. -/
def SettleUpd (_r r' : AuctionRoom) : Prop := r'.status = "ended"

/-- The per-row update class of the notification sweep. -/
def SweepUpd (r r' : AuctionRoom) : Prop := r' = { r with status := "winner_notified" }

/-- `f` acts on rooms pointwise: each room is either untouched or updated
within the class `upd`, ids are preserved, and only rooms whose id belongs
to `E` are ever touched. -/
def PointwiseUpd (upd : AuctionRoom → AuctionRoom → Prop) (E : List String)
    (f : AuctionRoom → AuctionRoom) : Prop :=
  ∀ r, (f r = r ∨ upd r (f r)) ∧ (f r).id = r.id ∧ (f r ≠ r → r.id ∈ E)

/-- The identity map is a pointwise update for any class and id set. -/
theorem pointwiseUpd_id (upd : AuctionRoom → AuctionRoom → Prop) (E : List String) :
    PointwiseUpd upd E (fun r => r) :=
  fun _ => ⟨Or.inl rfl, rfl, fun hc => absurd rfl hc⟩

/-- Enlarging the id set preserves the pointwise-update property. -/
theorem pointwiseUpd_mono {upd : AuctionRoom → AuctionRoom → Prop} {E E' : List String}
    {f : AuctionRoom → AuctionRoom} (h : PointwiseUpd upd E f)
    (hsub : ∀ x ∈ E, x ∈ E') : PointwiseUpd upd E' f := by
  intro r
  obtain ⟨hc, hid, hm⟩ := h r
  exact ⟨hc, hid, fun hne => hsub _ (hm hne)⟩

/-- Pointwise updates compose when the update class absorbs repetition. -/
theorem pointwiseUpd_comp {upd : AuctionRoom → AuctionRoom → Prop} {E₁ E₂ : List String}
    {f₁ f₂ : AuctionRoom → AuctionRoom}
    (hupd : ∀ r x y, upd r x → x.id = r.id → (y = x ∨ upd x y) → upd r y)
    (h₁ : PointwiseUpd upd E₁ f₁) (h₂ : PointwiseUpd upd E₂ f₂) :
    PointwiseUpd upd (E₁ ++ E₂) (fun r => f₂ (f₁ r)) := by
  intro r
  obtain ⟨hc₁, hid₁, hm₁⟩ := h₁ r
  obtain ⟨hc₂, hid₂, hm₂⟩ := h₂ (f₁ r)
  refine ⟨?_, ?_, ?_⟩
  · rcases hc₁ with he₁ | hu₁
    · rw [he₁] at hc₂
      rcases hc₂ with he₂ | hu₂
      · exact Or.inl (show f₂ (f₁ r) = r by rw [he₁, he₂])
      · exact Or.inr (show upd r (f₂ (f₁ r)) by rw [he₁]; exact hu₂)
    · exact Or.inr (hupd r (f₁ r) (f₂ (f₁ r)) hu₁ hid₁ hc₂)
  · show (f₂ (f₁ r)).id = r.id
    rw [hid₂, hid₁]
  · intro hne
    by_cases hf : f₁ r = r
    · have h2ne : f₂ (f₁ r) ≠ f₁ r := by
        rw [hf]
        simpa [hf] using hne
      have hmem := hm₂ h2ne
      rw [hf] at hmem
      exact List.mem_append.mpr (Or.inr hmem)
    · exact List.mem_append.mpr (Or.inl (hm₁ hf))

/-- `SettleUpd` absorbs repetition. -/
theorem settleUpd_absorb : ∀ r x y : AuctionRoom, SettleUpd r x → x.id = r.id →
    (y = x ∨ SettleUpd x y) → SettleUpd r y := by
  intro r x y hx _ hy
  rcases hy with he | hu
  · rw [he]
    exact hx
  · exact hu

/-- `SweepUpd` absorbs repetition. -/
theorem sweepUpd_absorb : ∀ r x y : AuctionRoom, SweepUpd r x → x.id = r.id →
    (y = x ∨ SweepUpd x y) → SweepUpd r y := by
  intro r x y hx _ hy
  rcases hy with he | hu
  · rw [he]
    exact hx
  · rw [hu, hx]
    cases r
    rfl

/-- `processExpiredAuction` acts on the room table as a pointwise settled
update touching only the processed room's id. -/
theorem processExpiredAuction_pointwise (env : Env) (auction : AuctionRoom) (s : SysState) :
    ∃ f, PointwiseUpd SettleUpd [auction.id] f ∧
      (processExpiredAuction env auction s).1.rooms = s.rooms.map f := by
  rcases processExpiredAuction_rooms_cases env auction s with h | h
  · exact ⟨fun r => r, pointwiseUpd_id _ _, by simpa using h⟩
  · refine ⟨fun r =>
      if r.id = auction.id then applyRoomUpdate r (settledUpdate env auction) else r, ?_, h⟩
    intro r
    by_cases hid : r.id = auction.id
    · refine ⟨Or.inr ?_, ?_, fun _ => ?_⟩
      · simp only [hid, if_true, if_pos]
        exact settledUpdate_status env auction
      · simp [hid, applyRoomUpdate]
      · simp [hid]
    · simp [hid]

/-- The settlement batch loop acts on the room table as a pointwise settled
update touching only ids of the queried rooms. -/
theorem processAuctionsLoop_pointwise (env : Env) :
    ∀ (l : List AuctionRoom) (s : SysState),
      ∃ f, PointwiseUpd SettleUpd (l.map AuctionRoom.id) f ∧
        (processAuctionsLoop env l s).1.rooms = s.rooms.map f := by
  intro l
  induction l with
  | nil =>
    intro s
    exact ⟨fun r => r, pointwiseUpd_id _ _, by simp [processAuctionsLoop_nil]⟩
  | cons a rest ih =>
    intro s
    rw [processAuctionsLoop_cons]
    by_cases h : (processExpiredAuction env a s).2 = true
    · rw [if_pos h]
      obtain ⟨f₁, hp₁, he₁⟩ := processExpiredAuction_pointwise env a s
      obtain ⟨f₂, hp₂, he₂⟩ := ih (processExpiredAuction env a s).1
      refine ⟨fun r => f₂ (f₁ r), ?_, ?_⟩
      · exact pointwiseUpd_comp settleUpd_absorb hp₁ hp₂
      · rw [he₂, he₁, List.map_map]
        rfl
    · rw [if_neg h]
      obtain ⟨f₁, hp₁, he₁⟩ := processExpiredAuction_pointwise env a s
      exact ⟨f₁, pointwiseUpd_mono hp₁ (fun x hx => by
        simp only [List.map_cons]
        rcases hx with hx
        simp only [List.mem_singleton] at hx
        exact hx ▸ List.mem_cons_self _ _), he₁⟩

/-- `checkExpiredAuctions` acts on the room table as a pointwise settled
update touching only ids of expired active rooms. -/
theorem checkExpiredAuctions_pointwise (env : Env) (s : SysState) :
    ∃ f, PointwiseUpd SettleUpd ((getExpiredAuctions env s).map AuctionRoom.id) f ∧
      (checkExpiredAuctions env s).1.rooms = s.rooms.map f :=
  processAuctionsLoop_pointwise env (getExpiredAuctions env s) s

/-- C7: settlement of a room whose live snapshot yields zero bids (no
snapshot, or a snapshot with an empty bid map) writes
`totalBids = 0`, `winnerId = null`, `currentHighestBid = startingBid`,
sets the room status to `ended`, transitions the linked product to the
marketplace environment, and performs no winner notification; the call
completes without throwing. -/
theorem processExpiredAuction_zero_bids_settlement (env : Env) (auction : AuctionRoom)
    (s : SysState)
    (hend : auction.endTime ≤ env.now)
    (hnobids : liveBidsOf env auction.id = [])
    (hroom : (s.rooms.any fun r => r.id = auction.id) = true)
    (hprod : (s.products.any fun p => p.id = auction.productId) = true) :
    (processExpiredAuction env auction s).2 = true ∧
    (processExpiredAuction env auction s).1.rooms =
      s.rooms.map (fun r =>
        if r.id = auction.id then
          applyRoomUpdate r (computeUpdateData auction [] none none env.now)
        else r) ∧
    (computeUpdateData auction [] none none env.now).status = "ended" ∧
    (computeUpdateData auction [] none none env.now).totalBids = 0 ∧
    (computeUpdateData auction [] none none env.now).winnerId = none ∧
    (computeUpdateData auction [] none none env.now).currentHighestBid = auction.startingBid ∧
    (processExpiredAuction env auction s).1.products =
      s.products.map (fun p =>
        if p.id = auction.productId then { p with environment := "MARKETPLACE" } else p) ∧
    (processExpiredAuction env auction s).1.notifyCalls = s.notifyCalls := by
  have hbids : expiredBids env auction.id = [] := by
    simp [expiredBids, hnobids, formatBidsFromFirebase]
  have hlen : ¬ (expiredBids env auction.id).length > 0 := by
    simp [hbids]
  have hflag : (updateAuctionStats env auction [] none none s).1.2 = true := hroom
  have hproc : processExpiredAuction env auction s =
      transferAuctionProductEnvironment auction
        (updateAuctionStats env auction [] none none s).1.1 := by
    simp only [processExpiredAuction]
    rw [if_neg hlen, if_pos hflag]
  refine ⟨?_, ?_, rfl, rfl, rfl, rfl, ?_, ?_⟩
  · rw [hproc]
    exact hprod
  · rw [hproc]
    rfl
  · rw [hproc]
    rfl
  · rw [hproc]
    rfl

/-- A marketplace-bound product row used in concrete settlement instances. -/
def prodP : Product := { id := "P", title := "Wheat Lot", environment := "AUCTION" }

/-- Environment with no live snapshots at all, clock at 10. -/
def envNoBids : Env :=
  { now := 10
    live := fun _ => none
    createBidFails := fun _ => false
    users := []
    sendEmail := fun _ => .ok { success := true, messageId := some "m1", error := none }
    sendWhatsApp := fun _ => .ok { success := true, sid := none, error := none }
    sendSMS := fun _ => .ok { success := true, sid := none, error := none } }

/-- A store holding the single expired room `roomT` and its product. -/
def stateT : SysState :=
  { rooms := [roomT], products := [prodP], bidRows := [], notifyCalls := [] }

/-- Witness for C7 at a concrete input: one expired active room, no live
snapshot — the settlement completes successfully. -/
theorem processExpiredAuction_zero_bids_settlement_witness :
    (processExpiredAuction envNoBids roomT stateT).2 = true ∧
    (processExpiredAuction envNoBids roomT stateT).1.notifyCalls = stateT.notifyCalls :=
  ⟨(processExpiredAuction_zero_bids_settlement envNoBids roomT stateT
      (by decide) (by decide) (by decide) (by decide)).1,
   (processExpiredAuction_zero_bids_settlement envNoBids roomT stateT
      (by decide) (by decide) (by decide) (by decide)).2.2.2.2.2.2.2⟩

/-- C6 (amended): the `currentHighestBid` written at settlement is the
live snapshot's reported `currentHighestBid` (falling back to the room's
`startingBid` when the snapshot reports none) when the reconciled bid set
is non-empty, and the room's `startingBid` when it is empty — not the
maximum amount over the reconciled bids. -/
theorem processExpiredAuction_highest_bid_written (env : Env) (auction : AuctionRoom)
    (s : SysState)
    (hsave : (expiredBids env auction.id).length > 0 →
      (saveBidHistory env auction.id (expiredBids env auction.id)
        (some (reportedHighestBid env auction)) s).2 = true) :
    (processExpiredAuction env auction s).1.rooms =
      s.rooms.map (fun r =>
        if r.id = auction.id then applyRoomUpdate r (settledUpdate env auction) else r) ∧
    (settledUpdate env auction).currentHighestBid =
      (if (expiredBids env auction.id).length > 0 then reportedHighestBid env auction
       else auction.startingBid) := by
  constructor
  · have hthen := settlementRooms_then env auction s
    have helse := settlementRooms_else env auction s
    simp only [processExpiredAuction]
    split
    · rename_i hb
      split
      · split
        · split
          · split
            · exact hthen hb
            · exact hthen hb
          · exact hthen hb
        · exact hthen hb
      · rename_i hsv
        exact absurd (hsave hb) hsv
    · rename_i hb
      split
      · exact helse hb
      · exact helse hb
  · unfold settledUpdate
    by_cases hb : (expiredBids env auction.id).length > 0
    · rw [if_pos hb, if_pos hb]
      rfl
    · rw [if_neg hb, if_neg hb]
      rfl

/-- Environment whose live snapshot for room `R` holds one bid of amount
100 but reports a running `currentHighestBid` of 50. -/
def envSnap : Env :=
  { now := 10
    live := fun roomId =>
      if roomId = "R" then
        some { bids := [("b1",
                 { userName := some "x", amount := some 100, bidderId := some "u",
                   userId := some "u", timestamp := some 1 })],
               totalBids := some 1, currentHighestBid := some 50 }
      else none
    createBidFails := fun _ => false
    users := []
    sendEmail := fun _ => .ok { success := true, messageId := some "m1", error := none }
    sendWhatsApp := fun _ => .ok { success := true, sid := none, error := none }
    sendSMS := fun _ => .ok { success := true, sid := none, error := none } }

/-- C6 counterexample: the settled room's `currentHighestBid` is the
snapshot-reported 50, while the maximum amount across the reconciled bid
set is 100 — the written statistic is not the maximum bid amount. -/
theorem processExpiredAuction_highest_bid_from_snapshot_cex :
    (processExpiredAuction envSnap roomT stateT).1.rooms.map
        (fun r => r.currentHighestBid) = [some 50] ∧
    (expiredBids envSnap roomT.id).map Bid.amount = [100] ∧
    (50 : Int) ≠ 100 := by
  refine ⟨rfl, rfl, by decide⟩

/-- Witness for C6 at a concrete input: the reconciliation succeeds and
the written value matches the snapshot-reported running highest bid. -/
theorem processExpiredAuction_highest_bid_written_witness :
    (settledUpdate envSnap roomT).currentHighestBid =
      (if (expiredBids envSnap roomT.id).length > 0 then reportedHighestBid envSnap roomT
       else roomT.startingBid) :=
  (processExpiredAuction_highest_bid_written envSnap roomT stateT (fun _ => by decide)).2

/-- The eligibility predicate unpacked. -/
theorem isExpiredActive_iff (now : Nat) (r : AuctionRoom) :
    isExpiredActive now r = true ↔ r.status = "active" ∧ r.endTime ≤ now := by
  simp [isExpiredActive]

/-- C3: running `checkExpiredAuctions` a second time after the run that
settled the store's only expired room (its status now `ended`) performs
zero additional mutations: the eligibility query selects no rooms, so the
second call returns the settled store unchanged with result `true`. -/
theorem checkExpiredAuctions_second_run_noop (env : Env) (s : SysState) (x : AuctionRoom)
    (hx : x ∈ s.rooms)
    (honly : ∀ r ∈ s.rooms, isExpiredActive env.now r = true → r = x)
    (hexp : isExpiredActive env.now x = true)
    (hended : ∀ r ∈ (checkExpiredAuctions env s).1.rooms, r.id = x.id → r.status = "ended") :
    getExpiredAuctions env ((checkExpiredAuctions env s).1) = [] ∧
    checkExpiredAuctions env ((checkExpiredAuctions env s).1) =
      ((checkExpiredAuctions env s).1, true) := by
  obtain ⟨f, hp, he⟩ := checkExpiredAuctions_pointwise env s
  have hnone : getExpiredAuctions env ((checkExpiredAuctions env s).1) = [] := by
    apply List.filter_eq_nil_iff.mpr
    intro r hr
    intro helig
    obtain ⟨hract, _⟩ := (isExpiredActive_iff env.now r).mp helig
    have hr' := hr
    rw [he] at hr'
    obtain ⟨r₀, hr₀, hfr₀⟩ := List.mem_map.mp hr'
    obtain ⟨hc, hid, -⟩ := hp r₀
    rcases hc with hceq | hcend
    · have hr₀elig : isExpiredActive env.now r₀ = true := by
        rw [← hfr₀, hceq] at helig
        exact helig
      have hr₀x : r₀ = x := honly r₀ hr₀ hr₀elig
      have hidx : r.id = x.id := by
        rw [← hfr₀, hid, hr₀x]
      have := hended r hr hidx
      rw [this] at hract
      exact absurd hract (by decide)
    · have hcend' : (f r₀).status = "ended" := hcend
      rw [← hfr₀] at hract
      rw [hract] at hcend'
      exact absurd hcend' (by decide)
  refine ⟨hnone, ?_⟩
  show processAuctionsLoop env (getExpiredAuctions env ((checkExpiredAuctions env s).1))
      ((checkExpiredAuctions env s).1) = _
  rw [hnone]
  rfl

/-- Witness for C3 at a concrete input: the single expired room settles on
the first run (no live bids), and the second run is a no-op. -/
theorem checkExpiredAuctions_second_run_noop_witness :
    getExpiredAuctions envNoBids ((checkExpiredAuctions envNoBids stateT).1) = [] ∧
    checkExpiredAuctions envNoBids ((checkExpiredAuctions envNoBids stateT).1) =
      ((checkExpiredAuctions envNoBids stateT).1, true) :=
  checkExpiredAuctions_second_run_noop envNoBids stateT roomT
    (by decide) (by decide) (by decide) (by decide)

/-- A successful prefix of the settlement loop composes with the rest of
the batch. -/
theorem processAuctionsLoop_append (env : Env) :
    ∀ (l₁ l₂ : List AuctionRoom) (s : SysState), (processAuctionsLoop env l₁ s).2 = true →
      processAuctionsLoop env (l₁ ++ l₂) s =
        processAuctionsLoop env l₂ (processAuctionsLoop env l₁ s).1 := by
  intro l₁
  induction l₁ with
  | nil =>
    intro l₂ s _
    rfl
  | cons a rest ih =>
    intro l₂ s hok
    by_cases hfa : (processExpiredAuction env a s).2 = true
    · have hok' : (processAuctionsLoop env rest (processExpiredAuction env a s).1).2 = true := by
        rw [processAuctionsLoop_cons, if_pos hfa] at hok
        exact hok
      rw [List.cons_append, processAuctionsLoop_cons, if_pos hfa, ih l₂ _ hok']
      conv_rhs => rw [processAuctionsLoop_cons, if_pos hfa]
    · rw [processAuctionsLoop_cons, if_neg hfa] at hok
      exact absurd hok (by simp)

/-- C2 (amended): per-room failures are not isolated.  When the settlement
of room `x` fails (after the rooms before it in the batch processed
successfully), `checkExpiredAuctions` stops: no room after `x` is
processed, every room other than `x` keeps exactly the state it had when
`x`'s processing began (in particular a later expired room stays
`active`), and the call itself does not throw — it returns `false`. -/
theorem checkExpiredAuctions_abort_after_failure (env : Env) (s : SysState)
    (l₁ : List AuctionRoom) (x : AuctionRoom) (l₂ : List AuctionRoom)
    (hq : getExpiredAuctions env s = l₁ ++ x :: l₂)
    (hok : (processAuctionsLoop env l₁ s).2 = true)
    (hfail : (processExpiredAuction env x (processAuctionsLoop env l₁ s).1).2 = false) :
    checkExpiredAuctions env s =
      ((processExpiredAuction env x (processAuctionsLoop env l₁ s).1).1, false) ∧
    ∀ r ∈ (processAuctionsLoop env l₁ s).1.rooms, r.id ≠ x.id →
      r ∈ (checkExpiredAuctions env s).1.rooms := by
  have hrun : checkExpiredAuctions env s =
      ((processExpiredAuction env x (processAuctionsLoop env l₁ s).1).1, false) := by
    show processAuctionsLoop env (getExpiredAuctions env s) s = _
    rw [hq, processAuctionsLoop_append env l₁ (x :: l₂) s hok, processAuctionsLoop_cons,
      if_neg (by rw [hfail]; simp)]
  refine ⟨hrun, ?_⟩
  intro r hr hrid
  rw [hrun]
  obtain ⟨f, hp, he⟩ :=
    processExpiredAuction_pointwise env x (processAuctionsLoop env l₁ s).1
  rw [he]
  obtain ⟨-, -, hm⟩ := hp r
  have hfr : f r = r := by
    by_contra hne
    have := hm hne
    simp only [List.mem_singleton] at this
    exact hrid this
  have := List.mem_map_of_mem f hr
  rw [hfr] at this
  exact this

/-- Environment in which the durable insert of bid `bx` (the only live bid
of room `X`) fails; room `Y` has no live bids. -/
def envFailX : Env :=
  { now := 10
    live := fun roomId =>
      if roomId = "X" then
        some { bids := [("bx",
                 { userName := some "x", amount := some 5, bidderId := some "u",
                   userId := some "u", timestamp := some 1 })],
               totalBids := some 1, currentHighestBid := some 5 }
      else none
    createBidFails := fun bidId => bidId = "bx"
    users := []
    sendEmail := fun _ => .ok { success := true, messageId := some "m1", error := none }
    sendWhatsApp := fun _ => .ok { success := true, sid := none, error := none }
    sendSMS := fun _ => .ok { success := true, sid := none, error := none } }

/-- Expired active room `X` whose reconciliation will fail. -/
def roomX : AuctionRoom :=
  { id := "X", productId := "PX", startingBid := 1, currentHighestBid := none,
    currentHighestBidderId := none, winnerId := none, endTime := 5,
    status := "active", totalBids := 0, totalParticipants := 0, updatedAt := 0 }

/-- Expired active room `Y`, processed after `X` in the batch. -/
def roomY : AuctionRoom :=
  { id := "Y", productId := "PY", startingBid := 1, currentHighestBid := none,
    currentHighestBidderId := none, winnerId := none, endTime := 5,
    status := "active", totalBids := 0, totalParticipants := 0, updatedAt := 0 }

/-- A store with the two expired rooms `X` and `Y` and their products. -/
def stateXY : SysState :=
  { rooms := [roomX, roomY]
    products := [{ id := "PX", title := "Lot X", environment := "AUCTION" },
                 { id := "PY", title := "Lot Y", environment := "AUCTION" }]
    bidRows := []
    notifyCalls := [] }

/-- C2 counterexample: both rooms are expired and active, room `X`'s
reconciliation insert fails — yet room `Y` is not processed at all and
remains `active` (the claim demands it end `ended` with its statistics
written); the batch call itself returns `false` without throwing. -/
theorem checkExpiredAuctions_isolation_cex :
    getExpiredAuctions envFailX stateXY = [roomX, roomY] ∧
    (checkExpiredAuctions envFailX stateXY).2 = false ∧
    (checkExpiredAuctions envFailX stateXY).1.rooms.map (fun r => (r.id, r.status)) =
      [("X", "active"), ("Y", "active")] := by
  refine ⟨rfl, rfl, rfl⟩

/-- Witness for C2 at a concrete input: room `X` is the first room of the
batch and fails; the call returns `false` with the state at failure. -/
theorem checkExpiredAuctions_abort_after_failure_witness :
    checkExpiredAuctions envFailX stateXY =
      ((processExpiredAuction envFailX roomX (processAuctionsLoop envFailX [] stateXY).1).1,
        false) :=
  (checkExpiredAuctions_abort_after_failure envFailX stateXY [] roomX [roomY]
    (by decide) rfl (by decide)).1

/-! ## Notification sweep structure lemmas -/

/-- `processSingleAuctionWinner` either leaves the room table unchanged or
advances the matching room's status to `winner_notified`. -/
theorem processSingleAuctionWinner_rooms_cases (env : Env) (a : AuctionRoom) (s : SysState) :
    (processSingleAuctionWinner env a s).1.rooms = s.rooms ∨
    (processSingleAuctionWinner env a s).1.rooms =
      s.rooms.map (fun r =>
        if r.id = a.id then { r with status := "winner_notified" } else r) := by
  simp only [processSingleAuctionWinner]
  split
  · exact Or.inl rfl
  · split
    · exact Or.inl rfl
    · split
      · split
        · exact Or.inr rfl
        · exact Or.inl rfl
      · exact Or.inl rfl

/-- `processSingleAuctionWinner` acts on the room table as a pointwise
sweep update touching only the processed room's id. -/
theorem processSingleAuctionWinner_pointwise (env : Env) (a : AuctionRoom) (s : SysState) :
    ∃ f, PointwiseUpd SweepUpd [a.id] f ∧
      (processSingleAuctionWinner env a s).1.rooms = s.rooms.map f := by
  rcases processSingleAuctionWinner_rooms_cases env a s with h | h
  · exact ⟨fun r => r, pointwiseUpd_id _ _, by simpa using h⟩
  · refine ⟨fun r => if r.id = a.id then { r with status := "winner_notified" } else r, ?_, h⟩
    intro r
    by_cases hid : r.id = a.id
    · refine ⟨Or.inr ?_, ?_, fun _ => ?_⟩ <;> simp [hid, SweepUpd]
    · simp [hid]

/-- The sweep loop acts on the room table as a pointwise sweep update
touching only ids of the selected rooms. -/
theorem sweepLoop_pointwise (env : Env) :
    ∀ (l : List AuctionRoom) (s : SysState),
      ∃ f, PointwiseUpd SweepUpd (l.map AuctionRoom.id) f ∧
        (sweepLoop env l s).rooms = s.rooms.map f := by
  intro l
  induction l with
  | nil =>
    intro s
    exact ⟨fun r => r, pointwiseUpd_id _ _, by simp [sweepLoop]⟩
  | cons a rest ih =>
    intro s
    obtain ⟨f₁, hp₁, he₁⟩ := processSingleAuctionWinner_pointwise env a s
    obtain ⟨f₂, hp₂, he₂⟩ := ih (processSingleAuctionWinner env a s).1
    refine ⟨fun r => f₂ (f₁ r), pointwiseUpd_comp sweepUpd_absorb hp₁ hp₂, ?_⟩
    show (sweepLoop env rest (processSingleAuctionWinner env a s).1).rooms = _
    rw [he₂, he₁, List.map_map]
    rfl

/-- `processAuctionWinnerNotifications` acts on the room table as a
pointwise sweep update touching only ids of rooms selected by
`getEndedAuctionsForNotification`. -/
theorem processAuctionWinnerNotifications_pointwise (env : Env) (s : SysState) :
    ∃ f, PointwiseUpd SweepUpd ((getEndedAuctionsForNotification env s).map AuctionRoom.id) f ∧
      (processAuctionWinnerNotifications env s).rooms = s.rooms.map f :=
  sweepLoop_pointwise env (getEndedAuctionsForNotification env s) s

/-! ## Reachability invariants -/

/-- Every room carrying a winner has reached at least the `ended` state. -/
def WinnerImpliesEnded (s : SysState) : Prop :=
  ∀ r ∈ s.rooms, r.winnerId ≠ none → r.status = "ended" ∨ r.status = "winner_notified"

/-- Room primary keys are unique. -/
def RoomIdsNodup (s : SysState) : Prop := (s.rooms.map AuctionRoom.id).Nodup

/-- A pointwise update preserves the list of room ids. -/
theorem map_ids_of_pointwise {upd : AuctionRoom → AuctionRoom → Prop} {E : List String}
    {f : AuctionRoom → AuctionRoom} (h : PointwiseUpd upd E f) (l : List AuctionRoom) :
    (l.map f).map AuctionRoom.id = l.map AuctionRoom.id := by
  rw [List.map_map]
  exact List.map_congr_left fun r _ => (h r).2.1

/-- Ids touched by the settlement belong to active rooms of the queried
store. -/
theorem mem_expired_ids {env : Env} {s : SysState} {v : String}
    (h : v ∈ (getExpiredAuctions env s).map AuctionRoom.id) :
    ∃ a ∈ s.rooms, a.id = v ∧ a.status = "active" := by
  obtain ⟨a, ha, rfl⟩ := List.mem_map.mp h
  have hf := List.mem_filter.mp ha
  exact ⟨a, hf.1, rfl, ((isExpiredActive_iff env.now a).mp hf.2).1⟩

/-- Ids touched by the sweep belong to rooms of the queried store that
carry a winner and are not yet notified. -/
theorem mem_notification_ids {env : Env} {s : SysState} {v : String}
    (h : v ∈ (getEndedAuctionsForNotification env s).map AuctionRoom.id) :
    ∃ a ∈ s.rooms, a.id = v ∧ a.winnerId ≠ none ∧ a.status ≠ "winner_notified" := by
  obtain ⟨a, ha, rfl⟩ := List.mem_map.mp h
  have hf := List.mem_filter.mp ha
  refine ⟨a, hf.1, rfl, ?_, ?_⟩
  · have := hf.2
    simp only [Bool.and_eq_true, decide_eq_true_eq] at this
    exact Option.isSome_iff_ne_none.mp this.1.2
  · have := hf.2
    simp only [Bool.and_eq_true, decide_eq_true_eq] at this
    exact this.2

/-- With unique ids, two rooms of the store sharing an id are equal. -/
theorem eq_of_mem_id {s : SysState} (hn : RoomIdsNodup s) {a b : AuctionRoom}
    (ha : a ∈ s.rooms) (hb : b ∈ s.rooms) (hid : a.id = b.id) : a = b :=
  List.inj_on_of_nodup_map hn ha hb hid

/-- One mutation step preserves both invariants. -/
theorem step_preserves_inv {s s' : SysState} (hstep : Step s s')
    (hw : WinnerImpliesEnded s) (hn : RoomIdsNodup s) :
    WinnerImpliesEnded s' ∧ RoomIdsNodup s' := by
  cases hstep with
  | create room product hstatus hwinner hfresh =>
    constructor
    · intro r hr hwid
      rcases List.mem_append.mp hr with hold | hnew
      · exact hw r hold hwid
      · rw [List.mem_singleton.mp hnew] at hwid
        exact absurd hwinner hwid
    · show ((s.rooms ++ [room]).map AuctionRoom.id).Nodup
      rw [List.map_append]
      refine List.Nodup.append hn (by simp) ?_
      intro v hv₁ hv₂
      obtain ⟨a, ha, rfl⟩ := List.mem_map.mp hv₁
      simp only [List.map_cons, List.map_nil, List.mem_singleton] at hv₂
      exact hfresh a ha hv₂
  | settle env =>
    obtain ⟨f, hp, he⟩ := checkExpiredAuctions_pointwise env s
    constructor
    · intro r hr hwid
      rw [he] at hr
      obtain ⟨r₀, hr₀, rfl⟩ := List.mem_map.mp hr
      rcases (hp r₀).1 with heq | hend
      · rw [heq] at hwid ⊢
        exact hw r₀ hr₀ hwid
      · exact Or.inl hend
    · show ((checkExpiredAuctions env s).1.rooms.map AuctionRoom.id).Nodup
      rw [he, map_ids_of_pointwise hp]
      exact hn
  | sweep env =>
    obtain ⟨f, hp, he⟩ := processAuctionWinnerNotifications_pointwise env s
    constructor
    · intro r hr hwid
      rw [he] at hr
      obtain ⟨r₀, hr₀, rfl⟩ := List.mem_map.mp hr
      rcases (hp r₀).1 with heq | hupd
      · rw [heq] at hwid ⊢
        exact hw r₀ hr₀ hwid
      · have : (f r₀).status = "winner_notified" := by
          rw [hupd]
        exact Or.inr this
    · show ((processAuctionWinnerNotifications env s).rooms.map AuctionRoom.id).Nodup
      rw [he, map_ids_of_pointwise hp]
      exact hn

/-- Both invariants hold in every reachable store state. -/
theorem reachable_inv {s : SysState} (h : Reachable s) :
    WinnerImpliesEnded s ∧ RoomIdsNodup s := by
  induction h with
  | init =>
    constructor
    · intro r hr
      exact absurd hr (by simp)
    · simp [RoomIdsNodup]
  | step _ hstep ih => exact step_preserves_inv hstep ih.1 ih.2

/-- Positional view of a mapped room table. -/
theorem get_of_map_eq {l l' : List AuctionRoom} {f : AuctionRoom → AuctionRoom}
    (he : l' = l.map f) (i : Nat) (h : i < l.length) :
    ∃ h' : i < l'.length, l'.get ⟨i, h'⟩ = f (l.get ⟨i, h⟩) := by
  subst he
  refine ⟨by simpa using h, ?_⟩
  simp [List.get_eq_getElem, List.getElem_map]

/-- C9: in every reachable store state, across every mutation step (room
creation, the settlement job, the notification retry sweep), each room (a)
only enters `winner_notified` from `ended` — the sweep selects only rooms
not yet `winner_notified`, which by the reachability invariant carry a
winner only once `ended` — (b) once `winner_notified` is never mutated
again, so the status is set at most once, and (c) has its `winnerId`
changed only by an update that simultaneously sets status `ended`. -/
theorem winner_notified_transition_invariant (s s' : SysState)
    (hreach : Reachable s) (hstep : Step s s') (i : Nat) (h : i < s.rooms.length) :
    ∃ h' : i < s'.rooms.length,
      ((s'.rooms.get ⟨i, h'⟩).status = "winner_notified" →
        (s.rooms.get ⟨i, h⟩).status ≠ "winner_notified" →
        (s.rooms.get ⟨i, h⟩).status = "ended") ∧
      ((s.rooms.get ⟨i, h⟩).status = "winner_notified" →
        s'.rooms.get ⟨i, h'⟩ = s.rooms.get ⟨i, h⟩) ∧
      ((s'.rooms.get ⟨i, h'⟩).winnerId ≠ (s.rooms.get ⟨i, h⟩).winnerId →
        (s'.rooms.get ⟨i, h'⟩).status = "ended") := by
  obtain ⟨hw, hn⟩ := reachable_inv hreach
  have hrmem : s.rooms.get ⟨i, h⟩ ∈ s.rooms := List.get_mem _ _ h
  cases hstep with
  | create room product hstatus hwinner hfresh =>
    have h' : i < (s.rooms ++ [room]).length := by
      rw [List.length_append]
      omega
    have hget : (s.rooms ++ [room]).get ⟨i, h'⟩ = s.rooms.get ⟨i, h⟩ := by
      simp [List.get_eq_getElem, List.getElem_append_left h]
    refine ⟨h', ?_, ?_, ?_⟩
    · intro h1 h2
      rw [hget] at h1
      exact absurd h1 h2
    · intro _
      exact hget
    · intro hne
      rw [hget] at hne
      exact absurd rfl hne
  | settle env =>
    obtain ⟨f, hp, he⟩ := checkExpiredAuctions_pointwise env s
    obtain ⟨h', hget⟩ := get_of_map_eq he i h
    obtain ⟨hc, hid, hm⟩ := hp (s.rooms.get ⟨i, h⟩)
    refine ⟨h', ?_, ?_, ?_⟩
    · intro h1 h2
      rw [hget] at h1
      rcases hc with heq | hend
      · rw [heq] at h1
        exact absurd h1 h2
      · have hend' : (f (s.rooms.get ⟨i, h⟩)).status = "ended" := hend
        rw [h1] at hend'
        exact absurd hend' (by decide)
    · intro h2
      rw [hget]
      by_cases hfr : f (s.rooms.get ⟨i, h⟩) = s.rooms.get ⟨i, h⟩
      · exact hfr
      · obtain ⟨a, ha, haid, hact⟩ := mem_expired_ids (hm hfr)
        have := eq_of_mem_id hn ha hrmem haid
        rw [this] at hact
        rw [hact] at h2
        exact absurd h2 (by decide)
    · intro hne
      rw [hget] at hne ⊢
      rcases hc with heq | hend
      · rw [heq] at hne
        exact absurd rfl hne
      · exact hend
  | sweep env =>
    obtain ⟨f, hp, he⟩ := processAuctionWinnerNotifications_pointwise env s
    obtain ⟨h', hget⟩ := get_of_map_eq he i h
    obtain ⟨hc, hid, hm⟩ := hp (s.rooms.get ⟨i, h⟩)
    refine ⟨h', ?_, ?_, ?_⟩
    · intro h1 h2
      rw [hget] at h1
      have hfr : f (s.rooms.get ⟨i, h⟩) ≠ s.rooms.get ⟨i, h⟩ := by
        intro heq
        rw [heq] at h1
        exact h2 h1
      obtain ⟨a, ha, haid, hawin, hanot⟩ := mem_notification_ids (hm hfr)
      have hae := eq_of_mem_id hn ha hrmem haid
      rw [hae] at hawin hanot
      rcases hw _ hrmem hawin with hended | hwn
      · exact hended
      · exact absurd hwn hanot
    · intro h2
      rw [hget]
      rcases hc with heq | hupd
      · exact heq
      · have hupd' : f (s.rooms.get ⟨i, h⟩) =
            { s.rooms.get ⟨i, h⟩ with status := "winner_notified" } := hupd
        rw [hupd']
        have : { s.rooms.get ⟨i, h⟩ with status := "winner_notified" } =
            s.rooms.get ⟨i, h⟩ := by
          rcases hx : s.rooms.get ⟨i, h⟩ with ⟨a, b, c, d, e, g, j, k, l, m, n⟩
          rw [hx] at h2
          simp only at h2
          simp [h2]
        exact this
    · intro hne
      rw [hget] at hne
      rcases hc with heq | hupd
      · rw [heq] at hne
        exact absurd rfl hne
      · have hupd' : f (s.rooms.get ⟨i, h⟩) =
            { s.rooms.get ⟨i, h⟩ with status := "winner_notified" } := hupd
        rw [hupd'] at hne
        exact absurd rfl hne

/-- The store after creating the single room `roomT` with product `prodP`. -/
def stateCreated : SysState :=
  { rooms := [roomT], products := [prodP], bidRows := [], notifyCalls := [] }

/-- Witness for C9 at a concrete input: one created room, one sweep step. -/
theorem winner_notified_transition_invariant_witness :
    ∃ h' : 0 < (processAuctionWinnerNotifications envNoBids stateCreated).rooms.length,
      (((processAuctionWinnerNotifications envNoBids stateCreated).rooms.get ⟨0, h'⟩).status =
          "winner_notified" →
        (stateCreated.rooms.get ⟨0, by decide⟩).status ≠ "winner_notified" →
        (stateCreated.rooms.get ⟨0, by decide⟩).status = "ended") ∧
      ((stateCreated.rooms.get ⟨0, by decide⟩).status = "winner_notified" →
        (processAuctionWinnerNotifications envNoBids stateCreated).rooms.get ⟨0, h'⟩ =
          stateCreated.rooms.get ⟨0, by decide⟩) ∧
      (((processAuctionWinnerNotifications envNoBids stateCreated).rooms.get ⟨0, h'⟩).winnerId ≠
          (stateCreated.rooms.get ⟨0, by decide⟩).winnerId →
        ((processAuctionWinnerNotifications envNoBids stateCreated).rooms.get ⟨0, h'⟩).status =
          "ended") :=
  winner_notified_transition_invariant stateCreated
    (processAuctionWinnerNotifications envNoBids stateCreated)
    (Reachable.step Reachable.init
      (Step.create stateEmpty roomT prodP rfl rfl (by simp [stateEmpty])))
    (Step.sweep stateCreated envNoBids) 0 (by decide)

end Aarath
